import Mathlib

/-!
Shallow embedding of the document-mirroring core (`src/doc-mirror/index.ts`)
and the test-report totalling loop (`src/testRunner.ts`) of the repository.

The host editor (vscode) is an external collaborator: its buffer is a list of
characters, an edit transaction records builder operations and either commits
(applying them sequentially at the literal offsets that were computed against
the pre-edit buffer, with no offset shifting between the operations of one
batch) or fails, and the commit verdict together with the formatter's resolved
value are inputs (`HostEnv`) rather than modelled behaviour.

The external line/offset model (`LineInputModel`, from `src/cursor-doc/model.ts`,
which is not among the staged sources) is modelled from the spec where needed:
its text, a pending-edit queue, the three repaint-bookkeeping collections, and
`getOffsetForLine` computed from its own line table.
-/

/-- The host text buffer: a list of characters. -/
abbrev Buffer := List Char

/-- ModelEditSelection from `cursor-doc/model`: a directional selection given
as anchor/active character offsets. -/
structure ModelEditSelection where
  anchor : Nat
  active : Nat
deriving DecidableEq, Repr

/-- ModelEdit (the LogicalEdit of the spec): a tagged variant over the three
edit operations, as dispatched by the `switch (modelEdit.editFn)` in
`DocumentModel.edit` (doc-mirror/index.ts lines 20-32).  Each variant carries
the unused `oldSelection`/`newSelection` fields. -/
inductive ModelEdit where
  | insertString (offset : Nat) (text : List Char)
      (oldSelection newSelection : Option (Nat × Nat))
  | changeRange (rangeStart rangeEnd : Nat) (text : List Char)
      (oldSelection newSelection : Option (Nat × Nat))
  | deleteRange (offset count : Nat)
      (oldSelection newSelection : Option (Nat × Nat))
deriving DecidableEq, Repr

/-- ModelEditOptions from `cursor-doc/model`: all fields optional, matching
the TypeScript optional fields read by `DocumentModel.edit`. -/
structure ModelEditOptions where
  undoStopBefore : Option Bool
  selection : Option ModelEditSelection
  skipFormat : Option Bool
  formatDepth : Option Int
deriving DecidableEq, Repr

/-- JavaScript truthiness of an optional boolean: `undefined` is falsy
(`!!options.undoStopBefore`, `!options.skipFormat`). -/
def jsTruthy : Option Bool → Bool
  | some b => b
  | none => false

/-- One primitive operation recorded against the host `TextEditorEdit`
builder, with its position arguments already resolved to absolute offsets
(the source computes them with `document.positionAt` against the live
pre-edit buffer). -/
inductive BuilderOp where
  | insert (offset : Nat) (text : List Char)
  | replace (rangeStart rangeEnd : Nat) (text : List Char)
  | delete (rangeStart rangeEnd : Nat)
deriving DecidableEq, Repr

/-- Host application of one builder operation to the buffer, at its literal
offsets (spec section 2 / 4.3: edits of a batch apply in list order against
the pre-edit coordinate space; out-of-range offsets clamp as the host's
`positionAt` clamps). -/
def applyBuilderOp (buf : Buffer) : BuilderOp → Buffer
  | .insert off t => buf.take off ++ t ++ buf.drop off
  | .replace s e t => buf.take s ++ t ++ buf.drop e
  | .delete s e => buf.take s ++ buf.drop e

/-- Host commit of an edit transaction: the recorded operations applied
sequentially, left to right, each at its literal offsets. -/
def applyBuilderOps (buf : Buffer) (ops : List BuilderOp) : Buffer :=
  ops.foldl applyBuilderOp buf

/-- The `switch (modelEdit.editFn)` dispatch of `DocumentModel.edit`
(doc-mirror/index.ts lines 20-32) together with the private helpers
`insertEdit`, `replaceEdit` and `deleteEdit` (lines 49-68): `insertString`
becomes a builder insert at `offset`, `changeRange` a builder replace of
`[rangeStart, rangeEnd)`, and `deleteRange` a builder delete of
`[offset, offset + count)`.  The `oldSelection`/`newSelection` arguments are
accepted and ignored, exactly as in the source. -/
def DocumentModel.editToOp : ModelEdit → BuilderOp
  | .insertString off t _ _ => .insert off t
  | .changeRange s e t _ _ => .replace s e t
  | .deleteRange off count _ _ => .delete off (off + count)

/-- The host-determined outcomes that `DocumentModel.edit` awaits: whether
the edit transaction commits, and the value the formatter's promise resolves
to (the formatter lives in `calva-fmt`, outside the staged sources; per the
spec it is an external collaborator returning a promise). -/
structure HostEnv where
  commit : Bool
  formatResult : Bool
deriving DecidableEq, Repr

/-- Everything observable about one `DocumentModel.edit` call: the host
buffer after the transaction, the `undoStopBefore` flag passed to the host,
the selection applied to the live editor (none when left untouched), whether
the active end was revealed, the `format-depth` the formatter was invoked
with (none when the formatter was not invoked), and the resolved value of
the returned promise. -/
structure EditOutcome where
  buffer : Buffer
  undoStopBefore : Bool
  selectionSet : Option ModelEditSelection
  revealed : Bool
  formatDepthUsed : Option Int
  result : Bool
deriving DecidableEq, Repr

/-- The `format-depth` argument of the formatter call:
`options.formatDepth ? options.formatDepth : 1` (doc-mirror/index.ts line 41),
so an absent or zero (falsy) `formatDepth` yields 1. -/
def DocumentModel.formatDepthArg (options : ModelEditOptions) : Int :=
  match options.formatDepth with
  | some d => if d = 0 then 1 else d
  | none => 1

/-- DocumentModel.edit (doc-mirror/index.ts lines 15-47): record one builder
operation per model edit in list order, ask the host to commit the
transaction with `undoStopBefore := !!options.undoStopBefore` and no trailing
undo stop; then, on the resolved commit verdict `isFulfilled`: if it is true,
apply `options.selection` (when present) to the live editor, and unless
`options.skipFormat` is truthy return the formatter's promise (so its
resolved value becomes the resolved value of the whole chain); otherwise
resolve to `isFulfilled` itself.  A failed commit therefore resolves to
`false` and nothing further happens. -/
def DocumentModel.edit (env : HostEnv) (buf : Buffer) (modelEdits : List ModelEdit)
    (options : ModelEditOptions) : EditOutcome :=
  let undoStopBefore := jsTruthy options.undoStopBefore
  let ops := modelEdits.map DocumentModel.editToOp
  if env.commit then
    let skipF := jsTruthy options.skipFormat
    { buffer := applyBuilderOps buf ops
      undoStopBefore := undoStopBefore
      selectionSet := options.selection
      revealed := options.selection.isSome
      formatDepthUsed := if skipF then none else some (DocumentModel.formatDepthArg options)
      result := if skipF then true else env.formatResult }
  else
    { buffer := buf
      undoStopBefore := undoStopBefore
      selectionSet := none
      revealed := false
      formatDepthUsed := none
      result := false }

/-- A model edit with its (unused) selection fields erased; two edits with
the same image under this map differ only in `oldSelection`/`newSelection`. -/
def ModelEdit.stripSelections : ModelEdit → ModelEdit
  | .insertString off t _ _ => .insertString off t none none
  | .changeRange s e t _ _ => .changeRange s e t none none
  | .deleteRange off count _ _ => .deleteRange off count none none

/-- Modelled from the spec: the external line/offset model (`LineInputModel`
of `src/cursor-doc/model.ts`, not among the staged sources).  Spec sections
3 and 6: it owns an LF-normalized character buffer, a queue of pending edits
that a flush applies, the three repaint-bookkeeping collections (dirty-line
list, inserted-line set, deleted-line set, here all lists of line numbers),
and a line-terminator width fixed at construction (2 for a CRLF host
document, 1 otherwise). -/
structure LineInputModel where
  lineEndingLength : Nat
  text : List Char
  pending : List ModelEdit
  dirtyLines : List Nat
  insertedLines : List Nat
  deletedLines : List Nat
deriving DecidableEq, Repr

/-- Modelled from the spec: a freshly constructed model
(`new LineInputModel(lineEndingLength)`), empty in every component. -/
def LineInputModel.fresh (lineEndingLength : Nat) : LineInputModel :=
  ⟨lineEndingLength, [], [], [], [], []⟩

/-- The text split at newline characters into lines (the terminators are not
part of any line); the empty text is one empty line. -/
def splitLines (t : List Char) : List (List Char) :=
  t.foldr
    (fun c acc =>
      if c = '\n' then [] :: acc
      else
        match acc with
        | [] => [[c]]
        | l :: ls => (c :: l) :: ls)
    [[]]

/-- The line number (zero-based) an offset falls on: the number of newline
characters before it.  Used only for the spec-modelled repaint bookkeeping. -/
def lineOfOffset (t : List Char) (off : Nat) : Nat :=
  ((t.take off).filter (fun c => c = '\n')).length

/-- Modelled from the spec: `offset-for-line` of the external model (spec
sections 4.2 and 6): the character offset of the start of a line, each
preceding line contributing its length plus the terminator width fixed at
construction.  Spec section 8 example: with lines `abc` and `def` and one
newline, line 1 starts at offset 4. -/
def LineInputModel.getOffsetForLine (m : LineInputModel) (line : Nat) : Nat :=
  (((splitLines m.text).take line).map (fun l => l.length + m.lineEndingLength)).sum

/-- Modelled from the spec: `insert-string-at-offset` of the external model
(spec section 6, used to seed a new mirror with the document's full text).
The text is spliced in at the offset; the touched line is recorded in the
repaint bookkeeping (whose exact contents the spec leaves open — this layer
only ever clears them). -/
def LineInputModel.insertString (m : LineInputModel) (offset : Nat) (t : List Char) :
    LineInputModel :=
  { m with
    text := m.text.take offset ++ t ++ m.text.drop offset
    dirtyLines := m.dirtyLines ++ [lineOfOffset m.text offset]
    insertedLines :=
      if t.any (fun c => c = '\n') then m.insertedLines ++ [lineOfOffset m.text offset]
      else m.insertedLines }

/-- Modelled from the spec: `submit-edit-batch` of the external model (spec
sections 4.2 and 6): the batch is queued; a later flush applies it. -/
def LineInputModel.edit (m : LineInputModel) (edits : List ModelEdit) : LineInputModel :=
  { m with pending := m.pending ++ edits }

/-- Modelled from the spec: applying one queued edit to the model's text,
recording the touched lines in the repaint bookkeeping. -/
def LineInputModel.applyEdit (m : LineInputModel) : ModelEdit → LineInputModel
  | .insertString off t _ _ => m.insertString off t
  | .changeRange s e t _ _ =>
    { m with
      text := m.text.take s ++ t ++ m.text.drop e
      dirtyLines := m.dirtyLines ++ [lineOfOffset m.text s]
      insertedLines :=
        if t.any (fun c => c = '\n') then m.insertedLines ++ [lineOfOffset m.text s]
        else m.insertedLines
      deletedLines :=
        if ((m.text.take e).drop s).any (fun c => c = '\n') then
          m.deletedLines ++ [lineOfOffset m.text s]
        else m.deletedLines }
  | .deleteRange off count _ _ =>
    { m with
      text := m.text.take off ++ m.text.drop (off + count)
      dirtyLines := m.dirtyLines ++ [lineOfOffset m.text off]
      deletedLines :=
        if ((m.text.take (off + count)).drop off).any (fun c => c = '\n') then
          m.deletedLines ++ [lineOfOffset m.text off]
        else m.deletedLines }

/-- Modelled from the spec: `flush-pending` of the external model (spec
sections 4.2 and 6): every queued edit is applied, in order, and the queue
is emptied. -/
def LineInputModel.flushChanges (m : LineInputModel) : LineInputModel :=
  m.pending.foldl LineInputModel.applyEdit { m with pending := [] }

/-- A host line/column position, as carried by a change event's range. -/
structure HostPosition where
  line : Nat
  character : Nat
deriving DecidableEq, Repr

/-- One contiguous change range of a host change event: its start and end
positions and the replacement text. -/
structure ContentChange where
  rangeStart : HostPosition
  rangeEnd : HostPosition
  text : List Char
deriving DecidableEq, Repr

/-- The global replacement `change.text.replace(/\r\n/g, '\n')` of
processChanges (doc-mirror/index.ts line 148): a left-to-right scan replacing
each non-overlapping CRLF pair by a single LF. -/
def crlfToLf : List Char → List Char
  | [] => []
  | [c] => [c]
  | c :: c2 :: rest2 =>
    if c = '\r' ∧ c2 = '\n' then '\n' :: crlfToLf rest2
    else c :: crlfToLf (c2 :: rest2)

/-- The model edit processChanges records for one change range
(doc-mirror/index.ts lines 146-149): a `changeRange` whose start offset is
the model's own offset-for-line of the range's start line plus the start
column, whose end offset is the model's offset-for-line of the end line plus
the end column (the host's offset computation is never consulted), and whose
text is the CRLF-normalized replacement text. -/
def processChanges.recordedEdit (m : LineInputModel) (change : ContentChange) : ModelEdit :=
  ModelEdit.changeRange
    (m.getOffsetForLine change.rangeStart.line + change.rangeStart.character)
    (m.getOffsetForLine change.rangeEnd.line + change.rangeEnd.character)
    (crlfToLf change.text) none none

/-- processChanges (doc-mirror/index.ts lines 142-157): for each contiguous
change of the event, submit the translated edit as one changeRange batch;
then flush the pending edits, and clear the three repaint-bookkeeping
collections, which this layer does not consume. -/
def processChanges (m : LineInputModel) (changes : List ContentChange) : LineInputModel :=
  let flushed :=
    (changes.foldl (fun mm change => mm.edit [processChanges.recordedEdit mm change]) m).flushChanges
  { flushed with dirtyLines := [], insertedLines := [], deletedLines := [] }

/-- Lookup in an association list by key (JavaScript `map.get` / property
read): the value at the first matching key, or none. -/
def lookupKey {α β : Type} [DecidableEq α] : List (α × β) → α → Option β
  | [], _ => none
  | (k, v) :: rest, key => if k = key then some v else lookupKey rest key

/-- Update in an association list by key (JavaScript `map.set` / property
write): an existing key keeps its place with the new value, a new key is
appended in insertion order. -/
def setKey {α β : Type} [DecidableEq α] : List (α × β) → α → β → List (α × β)
  | [], key, v => [(key, v)]
  | (k, w) :: rest, key, v =>
    if k = key then (key, v) :: rest else (k, w) :: setKey rest key v

/-- A host text document as the registry observes it: an identity (host
documents compare by reference; the number stands for that reference), the
declared language, the full current text, and the declared end-of-line
style. -/
structure TextDocument where
  id : Nat
  languageId : String
  text : List Char
  eolCRLF : Bool
deriving DecidableEq, Repr

/-- MirroredDocument (doc-mirror/index.ts lines 82-138) as the registry
stores it: the host document and the line/offset model owned through the
document model wrapper. -/
structure MirroredDocument where
  document : TextDocument
  lineInputModel : LineInputModel
deriving DecidableEq, Repr

/-- The module-level `documents` map, keyed by host document identity. -/
abbrev Registry := List (Nat × MirroredDocument)

/-- The mirror `addDocument` creates for a fresh document
(doc-mirror/index.ts lines 13 and 171-172): its model is constructed with
terminator width 2 for a CRLF document and 1 otherwise, then seeded with the
document's full current text by a single `insertString` at offset 0. -/
def newMirroredDocument (doc : TextDocument) : MirroredDocument :=
  ⟨doc, (LineInputModel.fresh (if doc.eolCRLF then 2 else 1)).insertString 0 doc.text⟩

/-- addDocument (doc-mirror/index.ts lines 168-180), the registry's
`register`: for a present document of language `clojure` that is not yet in
the map, create the seeded mirror, store it and return false; for one
already in the map, return true and change nothing; for a missing document
or any other language, return false and change nothing.  Returns the updated
registry together with the boolean. -/
def addDocument (docs : Registry) (doc : Option TextDocument) : Registry × Bool :=
  match doc with
  | none => (docs, false)
  | some d =>
    if d.languageId = "clojure" then
      if (lookupKey docs d.id).isSome then (docs, true)
      else (setKey docs d.id (newMirroredDocument d), false)
    else (docs, false)

/-- The live editor state `MirroredDocument.insertString` works against: the
host buffer and the editor selection, the latter kept as the host keeps it
(a pair of line/column positions with a fixed anchor end and a moving active
end). -/
structure VSSelection where
  anchor : HostPosition
  active : HostPosition
deriving DecidableEq, Repr

/-- The host `offsetAt` conversion from a line/column position to an
absolute character offset, clamping the position into the document as the
host does. -/
def offsetAt (buf : List Char) (pos : HostPosition) : Nat :=
  let ls := splitLines buf
  let line := min pos.line (ls.length - 1)
  (((ls.take line).map (fun l => l.length + 1)).sum) + min pos.character (ls.getD line []).length

/-- The live editor state: buffer and current selection. -/
structure EditorState where
  buffer : List Char
  selection : VSSelection
deriving DecidableEq, Repr

/-- MirroredDocument.insertString (doc-mirror/index.ts lines 101-110):
capture the current editor selection, build a workspace edit inserting the
text at the position of `selectionLeft` (the offset of the selection's
anchor, line 86), apply it, and once the host reports the application —
whether it applied the edit or not (`applied`) — set the editor selection
back to the captured value. -/
def MirroredDocument.insertString (st : EditorState) (applied : Bool) (text : List Char) :
    EditorState :=
  let selection := st.selection
  let offset := offsetAt st.buffer selection.anchor
  let buffer :=
    if applied then st.buffer.take offset ++ text ++ st.buffer.drop offset else st.buffer
  ⟨buffer, selection⟩

/-- A test-run summary as `reportTests` reads it: the counters present on
one result's `summary` object, as key/value pairs in the object's key order
(JavaScript objects hold each key once). -/
abbrev Summary := List (String × Int)

/-- The initial `total_summary` of reportTests (testRunner.ts line 14):
every one of the five named counters starts at zero. -/
def initialTotals : Summary :=
  [("test", 0), ("error", 0), ("ns", 0), ("var", 0), ("fail", 0)]

/-- The accumulation of one result's summary into the running totals
(testRunner.ts lines 66-70): for each key of the summary in order,
`total_summary[k] = result.summary[k] + (total_summary[k] !== undefined ?
total_summary[k] : 0)` — the summary's value plus the current total, an
absent total counting as zero. -/
def reportTests.addSummary (total : Summary) (summary : Summary) : Summary :=
  summary.foldl
    (fun tot kv => setKey tot kv.1 (kv.2 + (lookupKey tot kv.1).getD 0))
    total

/-- The whole totalling loop of reportTests over the results (testRunner.ts
lines 22 and 66-71), starting from the given totals: a result whose summary
is null contributes nothing, every other result's summary is accumulated in
order. -/
def reportTests.accumulate (total : Summary) (results : List (Option Summary)) : Summary :=
  results.foldl
    (fun tot s =>
      match s with
      | none => tot
      | some summary => reportTests.addSummary tot summary)
    total

/-- The reported `total_summary` of reportTests in the no-error branch:
the accumulation started from the five zeroed counters. -/
def reportTests.totalSummary (results : List (Option Summary)) : Summary :=
  reportTests.accumulate initialTotals results

/-- The value a summary contributes at one key: the sum of its entries at
that key (a JavaScript object holds the key at most once, so this is the
value at the key, or zero when absent). -/
def sumKey : Summary → String → Int
  | [], _ => 0
  | (k1, v) :: rest, k => (if k1 = k then v else 0) + sumKey rest k

/-- The total contribution of a list of results at one key: the sum of
`sumKey` over the results whose summary is non-null. -/
def reportTests.contribution : List (Option Summary) → String → Int
  | [], _ => 0
  | none :: rest, k => reportTests.contribution rest k
  | some s :: rest, k => sumKey s k + reportTests.contribution rest k

/-- The replacement text a model edit carries (a delete carries none). -/
def ModelEdit.editText : ModelEdit → List Char
  | .insertString _ t _ _ => t
  | .changeRange _ _ t _ _ => t
  | .deleteRange _ _ _ _ => []

/-- Lookup after an update: the updated key reads the new value, every other
key is untouched. -/
theorem lookupKey_setKey {α β : Type} [DecidableEq α] (l : List (α × β)) (k k2 : α) (v : β) :
    lookupKey (setKey l k v) k2 = if k = k2 then some v else lookupKey l k2 := by
  induction l with
  | nil => simp [setKey, lookupKey]
  | cons kv rest ih =>
    obtain ⟨k1, w⟩ := kv
    by_cases h1 : k1 = k
    · subst h1
      by_cases h2 : k1 = k2 <;> simp [setKey, lookupKey, h2]
    · by_cases h2 : k1 = k2 <;> by_cases h3 : k = k2 <;>
        simp_all [setKey, lookupKey, ih]

/-- Claim C1, counterexample: with a host where the edit transaction commits
but the formatter's promise resolves to false, and empty options (so the
format pass is not skipped), `DocumentModel.edit` resolves to false although
the commit succeeded — the resolved value is the formatter's, not the commit
outcome. -/
theorem edit_resolved_value_cex :
    (HostEnv.mk true false).commit = true ∧
    (DocumentModel.edit (HostEnv.mk true false) [] []
        (ModelEditOptions.mk none none none none)).result = false := by
  decide

/-- Claim C1 (amended): `DocumentModel.edit` always resolves — a failed host
commit (for example a concurrent-edit conflict) resolves the promise to
false rather than rejecting it; a successful commit resolves to true when
`skipFormat` is set, and otherwise to the formatter's own resolved value,
which the source chains into the returned promise. -/
theorem edit_resolved_value (fr : Bool) (buf : Buffer) (edits : List ModelEdit)
    (options : ModelEditOptions) :
    (DocumentModel.edit (HostEnv.mk false fr) buf edits options).result = false ∧
    (DocumentModel.edit (HostEnv.mk true fr) buf edits options).result =
      (if jsTruthy options.skipFormat then true else fr) := by
  constructor <;> simp [DocumentModel.edit]

/-- Claim C2: when the host transaction commits, the batch is applied to the
host buffer in list order — the result is the left fold of the per-variant
builder operations over the edits exactly as given, never re-sorted and with
no offset shifting between the edits of one batch; each variant dispatches
to its own primitive (insert at `offset`; replace of
`[rangeStart, rangeEnd)`; delete of `[offset, offset + count)`); in
particular `[Insert(0, x), Insert(0, y)]` yields `y ++ x` prepended to the
original buffer. -/
theorem edit_applies_in_list_order (fr : Bool) (buf : Buffer) (options : ModelEditOptions) :
    (∀ edits : List ModelEdit,
        (DocumentModel.edit (HostEnv.mk true fr) buf edits options).buffer =
          edits.foldl (fun b e => applyBuilderOp b (DocumentModel.editToOp e)) buf) ∧
    (∀ off t s1 s2,
        (DocumentModel.edit (HostEnv.mk true fr) buf
            [ModelEdit.insertString off t s1 s2] options).buffer =
          buf.take off ++ t ++ buf.drop off) ∧
    (∀ s e t s1 s2,
        (DocumentModel.edit (HostEnv.mk true fr) buf
            [ModelEdit.changeRange s e t s1 s2] options).buffer =
          buf.take s ++ t ++ buf.drop e) ∧
    (∀ off count s1 s2,
        (DocumentModel.edit (HostEnv.mk true fr) buf
            [ModelEdit.deleteRange off count s1 s2] options).buffer =
          buf.take off ++ buf.drop (off + count)) ∧
    (∀ x y s1 s2 s3 s4,
        (DocumentModel.edit (HostEnv.mk true fr) buf
            [ModelEdit.insertString 0 x s1 s2, ModelEdit.insertString 0 y s3 s4]
            options).buffer =
          y ++ x ++ buf) := by
  refine ⟨?_, ?_, ?_, ?_, ?_⟩
  · intro edits
    simp [DocumentModel.edit, applyBuilderOps, List.foldl_map]
  · intro off t s1 s2
    simp [DocumentModel.edit, applyBuilderOps, DocumentModel.editToOp, applyBuilderOp]
  · intro s e t s1 s2
    simp [DocumentModel.edit, applyBuilderOps, DocumentModel.editToOp, applyBuilderOp]
  · intro off count s1 s2
    simp [DocumentModel.edit, applyBuilderOps, DocumentModel.editToOp, applyBuilderOp]
  · intro x y s1 s2 s3 s4
    simp [DocumentModel.edit, applyBuilderOps, DocumentModel.editToOp, applyBuilderOp]

/-- Claim C6, counterexample: with `formatDepth` present and equal to 0 and
formatting not skipped, a committed edit invokes the formatter with
format-depth 1, not with the given `options.formatDepth` (the source guards
with JavaScript truthiness, so a zero depth falls back to 1). -/
theorem edit_formatDepth_zero_cex :
    (DocumentModel.edit (HostEnv.mk true true) [] []
        (ModelEditOptions.mk none none none (some 0))).formatDepthUsed = some 1 ∧
    (ModelEditOptions.mk none none none (some 0)).formatDepth = some 0 ∧
    (1 : Int) ≠ 0 := by
  decide

/-- Claim C6 (amended): on a committed transaction, `options.selection`, when
present, is applied to the live editor and the active end revealed, and the
formatter is invoked unless `options.skipFormat` is truthy, with format-depth
equal to `options.formatDepth` when that is present and nonzero and 1 when it
is absent or zero; the defaults are undoStopBefore = false, skipFormat =
false, formatDepth = 1.  When the transaction does not commit, neither the
selection nor the formatter is applied. -/
theorem edit_commit_effects (fr : Bool) (buf : Buffer) (edits : List ModelEdit) :
    (∀ options : ModelEditOptions,
        (DocumentModel.edit (HostEnv.mk true fr) buf edits options).selectionSet =
          options.selection ∧
        (DocumentModel.edit (HostEnv.mk true fr) buf edits options).revealed =
          options.selection.isSome ∧
        (DocumentModel.edit (HostEnv.mk true fr) buf edits options).formatDepthUsed =
          (if jsTruthy options.skipFormat then none
           else some (DocumentModel.formatDepthArg options)) ∧
        (DocumentModel.edit (HostEnv.mk true fr) buf edits options).undoStopBefore =
          jsTruthy options.undoStopBefore) ∧
    (∀ a b c d, DocumentModel.formatDepthArg (ModelEditOptions.mk a b c (some d)) =
        if d = 0 then 1 else d) ∧
    (∀ a b c, DocumentModel.formatDepthArg (ModelEditOptions.mk a b c none) = 1) ∧
    jsTruthy none = false ∧
    (∀ options : ModelEditOptions,
        (DocumentModel.edit (HostEnv.mk false fr) buf edits options).selectionSet = none ∧
        (DocumentModel.edit (HostEnv.mk false fr) buf edits options).revealed = false ∧
        (DocumentModel.edit (HostEnv.mk false fr) buf edits options).formatDepthUsed =
          none) := by
  refine ⟨?_, ?_, ?_, rfl, ?_⟩
  · intro options
    refine ⟨?_, ?_, ?_, ?_⟩ <;> simp [DocumentModel.edit]
  · intro a b c d
    simp [DocumentModel.formatDepthArg]
  · intro a b c
    simp [DocumentModel.formatDepthArg]
  · intro options
    refine ⟨?_, ?_, ?_⟩ <;> simp [DocumentModel.edit]

/-- Claim C7: processChanges ends by clearing the three repaint-bookkeeping
collections; whatever the model held before the call and whatever the flush
recorded, the dirty-line list, the inserted-line set and the deleted-line
set are empty afterwards. -/
theorem processChanges_clears_bookkeeping (m : LineInputModel) (changes : List ContentChange) :
    (processChanges m changes).dirtyLines = [] ∧
    (processChanges m changes).insertedLines = [] ∧
    (processChanges m changes).deletedLines = [] := by
  refine ⟨rfl, rfl, rfl⟩

/-- Claim C8: the `oldSelection`/`newSelection` fields carried on each model
edit are dead to the batch-apply path — two edit batches that agree after
erasing those fields produce identical outcomes (buffer, applied selection,
reveal, formatter invocation and resolved value) for every host and every
option set; the applied selection comes only from `options.selection`. -/
theorem edit_ignores_edit_selections (env : HostEnv) (buf : Buffer)
    (options : ModelEditOptions) (edits1 edits2 : List ModelEdit)
    (h : edits1.map ModelEdit.stripSelections = edits2.map ModelEdit.stripSelections) :
    DocumentModel.edit env buf edits1 options = DocumentModel.edit env buf edits2 options := by
  have strip : ∀ e : ModelEdit,
      DocumentModel.editToOp (ModelEdit.stripSelections e) = DocumentModel.editToOp e := by
    intro e; cases e <;> rfl
  have key : edits1.map DocumentModel.editToOp = edits2.map DocumentModel.editToOp := by
    calc edits1.map DocumentModel.editToOp
        = (edits1.map ModelEdit.stripSelections).map DocumentModel.editToOp := by
          rw [List.map_map]
          exact (List.map_congr_left fun a _ => strip a).symm
      _ = (edits2.map ModelEdit.stripSelections).map DocumentModel.editToOp := by rw [h]
      _ = edits2.map DocumentModel.editToOp := by
          rw [List.map_map]
          exact List.map_congr_left fun a _ => strip a
  simp only [DocumentModel.edit, key]

/-- Claim C8, witness: two concrete one-edit batches differing only in their
`oldSelection`/`newSelection` fields give identical outcomes. -/
theorem edit_ignores_edit_selections_witness :
    DocumentModel.edit (HostEnv.mk true true) "abc".toList
        [ModelEdit.insertString 0 "X".toList (some (1, 2)) (some (3, 4))]
        (ModelEditOptions.mk none none none none) =
      DocumentModel.edit (HostEnv.mk true true) "abc".toList
        [ModelEdit.insertString 0 "X".toList none (some (0, 0))]
        (ModelEditOptions.mk none none none none) :=
  edit_ignores_edit_selections (HostEnv.mk true true) "abc".toList
    (ModelEditOptions.mk none none none none)
    [ModelEdit.insertString 0 "X".toList (some (1, 2)) (some (3, 4))]
    [ModelEdit.insertString 0 "X".toList none (some (0, 0))] rfl

/-- Claim C9: `MirroredDocument.insertString` restores the captured editor
selection after the workspace edit is applied, so the selection observed
after the operation equals the one observed before it (however the host
resolved the edit), and the text goes in at the offset of the selection's
anchor — its left edge in the source's naming (`selectionLeft`). -/
theorem insertString_preserves_selection (st : EditorState) (text : List Char) :
    (∀ applied, (MirroredDocument.insertString st applied text).selection = st.selection) ∧
    (MirroredDocument.insertString st true text).buffer =
      st.buffer.take (offsetAt st.buffer st.selection.anchor) ++ text ++
        st.buffer.drop (offsetAt st.buffer st.selection.anchor) := by
  exact ⟨fun applied => rfl, rfl⟩

/-- Claim C3: the model edit recorded for a change range takes its start
offset from the model's own offset-for-line of the start line plus the start
column and its end offset from the model's offset-for-line of the end line
plus the end column — the host's line/column-to-offset computation is not an
input to the translation at all; with a model seeded by a single insert of
the two lines `abc` and `def` (terminator width 1), the change from line 1
column 1 to line 1 column 2 is recorded at absolute offsets [5, 6] (not
[1, 2]), and processing that event edits exactly that span of the model. -/
theorem processChanges_offsets_from_model :
    (∀ (m : LineInputModel) (change : ContentChange),
        processChanges.recordedEdit m change =
          ModelEdit.changeRange
            (m.getOffsetForLine change.rangeStart.line + change.rangeStart.character)
            (m.getOffsetForLine change.rangeEnd.line + change.rangeEnd.character)
            (crlfToLf change.text) none none) ∧
    ((LineInputModel.fresh 1).insertString 0 "abc\ndef".toList).getOffsetForLine 1 = 4 ∧
    processChanges.recordedEdit ((LineInputModel.fresh 1).insertString 0 "abc\ndef".toList)
        (ContentChange.mk (HostPosition.mk 1 1) (HostPosition.mk 1 2) "X".toList) =
      ModelEdit.changeRange 5 6 "X".toList none none ∧
    (processChanges ((LineInputModel.fresh 1).insertString 0 "abc\ndef".toList)
        [ContentChange.mk (HostPosition.mk 1 1) (HostPosition.mk 1 2) "X".toList]).text =
      "abc\ndXf".toList :=
  ⟨fun m change => rfl, by decide, by decide, by decide⟩

/-- Replacement text without any carriage return is left unchanged by the
CRLF normalization scan. -/
theorem crlfToLf_of_no_cr : ∀ t : List Char, '\r' ∉ t → crlfToLf t = t
  | [], _ => rfl
  | [_], _ => rfl
  | c :: c2 :: rest, h => by
    have hc : c ≠ '\r' := by
      intro e
      exact h (by simp [e])
    have h2 : '\r' ∉ c2 :: rest := fun hm => h (List.mem_cons_of_mem c hm)
    simp only [crlfToLf]
    rw [if_neg fun hand => hc hand.1, crlfToLf_of_no_cr (c2 :: rest) h2]

/-- Claim C4: the text of the model edit recorded for a change range is the
change's replacement text with every CRLF pair replaced by a single LF; in
particular the replacement text `a\r\nb` is recorded as `a\nb`, and text
with no carriage return is recorded verbatim. -/
theorem processChanges_normalizes_crlf :
    (∀ (m : LineInputModel) (change : ContentChange),
        (processChanges.recordedEdit m change).editText = crlfToLf change.text) ∧
    crlfToLf "a\r\nb".toList = "a\nb".toList ∧
    (∀ t : List Char, '\r' ∉ t → crlfToLf t = t) :=
  ⟨fun m change => rfl, by decide, crlfToLf_of_no_cr⟩

/-- Claim C5: registering a present `clojure` document that is not yet
tracked stores exactly the mirror seeded by a single `insertString` of the
document's full text at offset 0 (so the stored model's text is the
document's text) and returns false; that mirror is then what its identity
looks up; registering it again returns true and leaves the registry
unchanged; registering a document of any other language returns false and
changes nothing. -/
theorem addDocument_registry :
    (∀ (docs : Registry) (d : TextDocument),
        d.languageId = "clojure" → lookupKey docs d.id = none →
        addDocument docs (some d) = (setKey docs d.id (newMirroredDocument d), false)) ∧
    (∀ d : TextDocument,
        (newMirroredDocument d).lineInputModel =
          (LineInputModel.fresh (if d.eolCRLF then 2 else 1)).insertString 0 d.text ∧
        (newMirroredDocument d).lineInputModel.text = d.text) ∧
    (∀ (docs : Registry) (id2 : Nat) (mir : MirroredDocument),
        lookupKey (setKey docs id2 mir) id2 = some mir) ∧
    (∀ (docs : Registry) (d : TextDocument),
        d.languageId = "clojure" → (lookupKey docs d.id).isSome = true →
        addDocument docs (some d) = (docs, true)) ∧
    (∀ (docs : Registry) (d : TextDocument),
        d.languageId ≠ "clojure" → addDocument docs (some d) = (docs, false)) ∧
    (∀ (docs : Registry) (d : TextDocument),
        d.languageId = "clojure" → lookupKey docs d.id = none →
        addDocument (addDocument docs (some d)).1 (some d) =
          ((addDocument docs (some d)).1, true)) := by
  refine ⟨?_, ?_, ?_, ?_, ?_, ?_⟩
  · intro docs d h1 h2
    simp [addDocument, h1, h2]
  · intro d
    refine ⟨rfl, ?_⟩
    simp [newMirroredDocument, LineInputModel.insertString, LineInputModel.fresh]
  · intro docs id2 mir
    rw [lookupKey_setKey]
    simp
  · intro docs d h1 h2
    simp [addDocument, h1, h2]
  · intro docs d h1
    simp [addDocument, h1]
  · intro docs d h1 h2
    have e1 : addDocument docs (some d) = (setKey docs d.id (newMirroredDocument d), false) := by
      simp [addDocument, h1, h2]
    rw [e1]
    simp [addDocument, h1, lookupKey_setKey]

/-- One summary accumulated into the running totals adds, at every key, the
summary's contribution at that key to the total read with default zero. -/
theorem addSummary_lookup (s t : Summary) (k : String) :
    (lookupKey (reportTests.addSummary t s) k).getD 0 =
      (lookupKey t k).getD 0 + sumKey s k := by
  induction s generalizing t with
  | nil => simp [reportTests.addSummary, sumKey]
  | cons kv rest ih =>
    obtain ⟨k1, v⟩ := kv
    have step : reportTests.addSummary t ((k1, v) :: rest) =
        reportTests.addSummary (setKey t k1 (v + (lookupKey t k1).getD 0)) rest := rfl
    rw [step, ih, lookupKey_setKey]
    by_cases h : k1 = k
    · subst h
      simp [sumKey]
      ring
    · simp [sumKey, h]

/-- Accumulating a summary never removes a key from the totals. -/
theorem addSummary_isSome (s t : Summary) (k : String)
    (h : (lookupKey t k).isSome = true) :
    (lookupKey (reportTests.addSummary t s) k).isSome = true := by
  induction s generalizing t with
  | nil => exact h
  | cons kv rest ih =>
    obtain ⟨k1, v⟩ := kv
    have step : reportTests.addSummary t ((k1, v) :: rest) =
        reportTests.addSummary (setKey t k1 (v + (lookupKey t k1).getD 0)) rest := rfl
    rw [step]
    refine ih _ ?_
    rw [lookupKey_setKey]
    by_cases h1 : k1 = k
    · simp [h1]
    · simp [h1, h]

/-- The whole totalling loop adds, at every key, the contribution of the
non-null summaries to the starting totals read with default zero. -/
theorem accumulate_lookup (results : List (Option Summary)) (t : Summary) (k : String) :
    (lookupKey (reportTests.accumulate t results) k).getD 0 =
      (lookupKey t k).getD 0 + reportTests.contribution results k := by
  induction results generalizing t with
  | nil => simp [reportTests.accumulate, reportTests.contribution]
  | cons r rest ih =>
    cases r with
    | none =>
      have step : reportTests.accumulate t (none :: rest) =
          reportTests.accumulate t rest := rfl
      rw [step, ih]
      simp only [reportTests.contribution]
    | some s =>
      have step : reportTests.accumulate t (some s :: rest) =
          reportTests.accumulate (reportTests.addSummary t s) rest := rfl
      rw [step, ih, addSummary_lookup]
      simp only [reportTests.contribution]
      ring

/-- The totalling loop never removes a key from the totals. -/
theorem accumulate_isSome (results : List (Option Summary)) (t : Summary) (k : String)
    (h : (lookupKey t k).isSome = true) :
    (lookupKey (reportTests.accumulate t results) k).isSome = true := by
  induction results generalizing t with
  | nil => exact h
  | cons r rest ih =>
    cases r with
    | none => exact ih t h
    | some s => exact ih _ (addSummary_isSome s t k h)

/-- Claim C10: in the no-error branch of reportTests, the reported totals at
any key equal the initial value (zero for the five named counters, absent
read as zero otherwise) plus the sum of the contributions of the results
whose summary is non-null; a key absent from the initial totals therefore
ends at exactly the contributions' sum (its own value on first occurrence,
then accumulated); and each of the five counters test, error, ns, var and
fail ends at exactly the sum of that counter over the non-null summaries,
starting from zero. -/
theorem reportTests_total_summary :
    (∀ (results : List (Option Summary)) (k : String),
        (lookupKey (reportTests.totalSummary results) k).getD 0 =
          (lookupKey initialTotals k).getD 0 + reportTests.contribution results k) ∧
    (∀ (results : List (Option Summary)) (k : String),
        lookupKey initialTotals k = none →
        (lookupKey (reportTests.totalSummary results) k).getD 0 =
          reportTests.contribution results k) ∧
    (∀ results : List (Option Summary),
        lookupKey (reportTests.totalSummary results) "test" =
          some (reportTests.contribution results "test") ∧
        lookupKey (reportTests.totalSummary results) "error" =
          some (reportTests.contribution results "error") ∧
        lookupKey (reportTests.totalSummary results) "ns" =
          some (reportTests.contribution results "ns") ∧
        lookupKey (reportTests.totalSummary results) "var" =
          some (reportTests.contribution results "var") ∧
        lookupKey (reportTests.totalSummary results) "fail" =
          some (reportTests.contribution results "fail")) := by
  have value : ∀ (results : List (Option Summary)) (k : String),
      (lookupKey (reportTests.totalSummary results) k).getD 0 =
        (lookupKey initialTotals k).getD 0 + reportTests.contribution results k :=
    fun results k => accumulate_lookup results initialTotals k
  have five : ∀ (results : List (Option Summary)) (k : String),
      (lookupKey initialTotals k).isSome = true →
      (lookupKey initialTotals k).getD 0 = 0 →
      lookupKey (reportTests.totalSummary results) k =
        some (reportTests.contribution results k) := by
    intro results k hs hz
    have h1 := accumulate_isSome results initialTotals k hs
    cases hx : lookupKey (reportTests.totalSummary results) k with
    | none =>
      rw [reportTests.totalSummary] at hx
      rw [hx] at h1
      simp at h1
    | some v =>
      have h2 := value results k
      rw [hx, hz, zero_add, Option.getD_some] at h2
      rw [h2]
  refine ⟨value, ?_, ?_⟩
  · intro results k h
    rw [value results k, h]
    simp
  · intro results
    exact ⟨five results "test" (by decide) (by decide),
      five results "error" (by decide) (by decide),
      five results "ns" (by decide) (by decide),
      five results "var" (by decide) (by decide),
      five results "fail" (by decide) (by decide)⟩
